import Mathlib

/-!
Verification of the Pinecone verification engine (directory walker, content
classifier, update classifier) against its design description.

The Go sources are shallowly embedded: the filesystem is a tree of `FSNode`s,
directory listings are the `kids` lists (in the sorted order `os.ReadDir` /
`filepath.Walk`'s `readDirNames` return them), hashing outcomes are carried on
the file nodes, and the console/GUI output of classification decisions is
modelled as a list of `Event`s.  Strings are treated character-wise; the
repository only manipulates ASCII names, for which Go's byte-wise indexing and
Lean's character-wise `String.drop`/`String.length` agree.
-/

/-- Character-list helper: `listHasPre pat l` is true when `pat` is an initial
segment of `l` (the inner loop of Go `strings.Contains`). -/
def listHasPre : List Char → List Char → Bool
  | [], _ => true
  | _ :: _, [] => false
  | a :: as, b :: bs => a == b && listHasPre as bs

/-- Character-list helper: `listHasSub pat l` is true when `pat` occurs as a
contiguous run inside `l`. -/
def listHasSub (pat : List Char) : List Char → Bool
  | [] => pat.isEmpty
  | c :: ts => listHasPre pat (c :: ts) || listHasSub pat ts

/-- Go `strings.Contains(s, sub)`: substring containment. -/
def goContains (s sub : String) : Bool :=
  listHasSub sub.data s.data

/-- Suffix of a character list starting at its last `'.'`, if any
(the scan of Go `filepath.Ext` on a base name, which contains no
path separator). -/
def extAux : List Char → Option (List Char)
  | [] => none
  | c :: rest =>
    match extAux rest with
    | some e => some e
    | none => if c == '.' then some (c :: rest) else none

/-- Go `filepath.Ext(name)` for a directory-entry base name: the suffix
beginning at the final dot, `""` when there is no dot. -/
def goExt (s : String) : String :=
  match extAux s.data with
  | some e => String.mk e
  | none => ""

/-- Go `strings.TrimPrefix(s, pre)`: drop `pre` from the front of `s` when it
is an initial segment, otherwise return `s` unchanged.  (A UTF-8 byte prefix
of a valid string is exactly a character prefix, so the character-level check
agrees with Go's byte-level one.) -/
def goTrimPre (s pre : String) : String :=
  if listHasPre pre.data s.data then String.mk (s.data.drop pre.data.length) else s

/-- Go `s[n:]` on a string already known to have at least `n` bytes: drop the
first `n` characters (ASCII: bytes and characters coincide). -/
def goDrop (s : String) (n : Nat) : String :=
  String.mk (s.data.drop n)

/-- Go `strings.ToLower` (ASCII names: per-character lowering). -/
def goToLower (s : String) : String :=
  String.mk (s.data.map Char.toLower)

/-- Catalog entry, from the `TitleData` struct used by `fileparse.go`
(`TitleName`, `ContentIDs`, and the two slice-of-map fields iterated as
`for _, m := range ...; for k, v := range m`).  Go maps have unique keys and
are modelled as association lists. -/
structure TitleData where
  TitleName : String
  ContentIDs : List String
  TitleUpdatesKnown : List (List (String × String))
  Archived : List (List (String × String))
deriving DecidableEq

/-- The catalog `titles.Titles`: a map from lowercase title id to
`TitleData`, modelled as an association list with unique keys. -/
def Catalog := List (String × TitleData)

/-- Go map indexing `titles.Titles[titleID]` (the `v, ok :=` form). -/
def lookupTitle (cat : Catalog) (tid : String) : Option TitleData :=
  (List.find? (fun x => x.1 == tid) cat).map (fun x => x.2)

/-- Classification events, one per classification message the engine prints;
headers (`printHeader`/`addHeader`) are presentation only and are not
classification outcomes. -/
inductive Event where
  | updateKnown (title tid name path hash : String)
  | updateUnknown (title tid path hash : String)
  | hashError (fname msg : String)
  | contentUnknown (path : String)
  | contentArchived (name : String)
  | contentUnarchived (title path : String)
  | unrecDLC (path : String)
  | unrecUpd (path : String)
deriving DecidableEq

/-- What `getSHA1Hash` returns for a node: the digest, or a read error. -/
inductive HashOutcome where
  | ok (h : String)
  | err (msg : String)
deriving DecidableEq

/-- A filesystem node.  `dir` children are the directory's listing in the
order the OS enumeration returns it (Go sorts listings by name); `readErr`
models a failure of `os.ReadDir`/`readDirNames` on that directory. -/
inductive FSNode where
  | file (name : String) (hashRes : HashOutcome)
  | dir (name : String) (readErr : Option String) (kids : List FSNode)

/-- The entry name of a node (`info.Name()`). -/
def FSNode.name : FSNode → String
  | .file n _ => n
  | .dir n _ _ => n

/-- `info.IsDir()`. -/
def FSNode.isDirN : FSNode → Bool
  | .file _ _ => false
  | .dir _ _ _ => true

/-- Outcome of `getSHA1Hash` on a node: files carry their own outcome;
opening a directory for hashing fails when `io.Copy` reads it. -/
def nodeHash : FSNode → HashOutcome
  | .file _ h => h
  | .dir _ _ _ => .err "is a directory"

/-- `os.Stat(filepath.Join(path, nm))` inside a listed directory: the child
entry of that name, if present. -/
def findChild (kids : List FSNode) (nm : String) : Option FSNode :=
  List.find? (fun c => c.name == nm) kids

/-- The probe `subInfo, err := os.Stat(filepath.Join(path, nm))` followed by
`err == nil && subInfo.IsDir()`: true when a child of that name exists and is
a directory. -/
def statIsDir (kids : List FSNode) (nm : String) : Bool :=
  match findChild kids nm with
  | some c => c.isDirN
  | none => false

/-- `contains(slice, val)` from `fileparse.go`: linear scan with `==`. -/
def containsGo : List String → String → Bool
  | [], _ => false
  | i :: rest, v => if i == v then true else containsGo rest v

/-- The archived-name search of `processDLCContent`: `archivedName` starts
empty, each map in `Archived` is scanned for the content id, and the outer
loop stops at the first non-empty name found. -/
def findArchivedGo : List (List (String × String)) → String → String
  | [], _ => ""
  | m :: ms, cid =>
    match List.find? (fun p => p.1 == cid) m with
    | some p => if p.2 == "" then findArchivedGo ms cid else p.2
    | none => findArchivedGo ms cid

/-- The qualification check of `processDLCContent`: some non-directory entry
whose lowercased name contains `"contentmeta.xbx"`. -/
def hasContentMetaXbx (entries : List FSNode) : Bool :=
  entries.any (fun k => goContains (goToLower k.name) "contentmeta.xbx" && !k.isDirN)

/-- The double loop of `processUpdates` over `TitleUpdatesKnown` with
`knownUpdateFound` entering as `found`: each map is scanned for the digest
(emitting the mapped name on a hit and stopping), and the outer loop stops
after the first map whenever `knownUpdateFound` is already set. -/
def scanKnown : List (List (String × String)) → String → Bool → Option String × Bool
  | [], _, found => (none, found)
  | m :: ms, h, found =>
    match List.find? (fun p => p.1 == h) m with
    | some p => (some p.2, true)
    | none => if found then (none, true) else scanKnown ms h found

/-- `processDLCContent` from `fileparse.go` (lines 128-196), given the listing
of the `$c` directory.  Returns the emitted events and, when an
`os.ReadDir(subContentPath)` fails, the propagated error.  Note that the
`Unknown content` message is printed before `strings.TrimPrefix` runs, so it
carries the un-stripped path. -/
def processDLCContentF (td : TitleData) (titleID subDirDLC directory : String) :
    List FSNode → List Event × Option String
  | [] => ([], none)
  | .file _ _ :: rest => processDLCContentF td titleID subDirDLC directory rest
  | .dir dname dre dkids :: rest =>
    let subContentPath := subDirDLC ++ "/" ++ dname
    match dre with
    | some er => ([], some er)
    | none =>
      if hasContentMetaXbx dkids then
        let contentID := goToLower dname
        if containsGo td.ContentIDs contentID then
          let an := findArchivedGo td.Archived contentID
          let trimmed := goTrimPre subContentPath (directory ++ "/")
          let r := processDLCContentF td titleID subDirDLC directory rest
          if an == "" then (Event.contentUnarchived td.TitleName trimmed :: r.1, r.2)
          else (Event.contentArchived an :: r.1, r.2)
        else
          let r := processDLCContentF td titleID subDirDLC directory rest
          (Event.contentUnknown subContentPath :: r.1, r.2)
      else processDLCContentF td titleID subDirDLC directory rest

/-- `processUpdates` from `fileparse.go` (lines 198-266), given the listing of
the `$u` directory and the current value of `knownUpdateFound` (which the Go
code initializes to `false` once, before the file loop, and never resets).
Returns the emitted events and the list of paths passed to `getSHA1Hash`. -/
def processUpdatesF (td : TitleData) (titleID subDirUpdates directory : String) :
    List FSNode → Bool → List Event × List String
  | [], _ => ([], [])
  | f :: rest, found =>
    if goExt f.name != ".xbe" then
      processUpdatesF td titleID subDirUpdates directory rest found
    else
      let filePath := subDirUpdates ++ "/" ++ f.name
      match nodeHash f with
      | .err e =>
        let r := processUpdatesF td titleID subDirUpdates directory rest found
        (Event.hashError f.name e :: r.1, filePath :: r.2)
      | .ok fileHash =>
        match scanKnown td.TitleUpdatesKnown fileHash found with
        | (some nm, _) =>
          let r := processUpdatesF td titleID subDirUpdates directory rest true
          (Event.updateKnown td.TitleName titleID nm
              (goTrimPre filePath (directory ++ "/")) fileHash :: r.1,
            filePath :: r.2)
        | (none, found2) =>
          if found2 then
            let r := processUpdatesF td titleID subDirUpdates directory rest found2
            (r.1, filePath :: r.2)
          else
            let r := processUpdatesF td titleID subDirUpdates directory rest found2
            (Event.updateUnknown td.TitleName titleID
                (goTrimPre filePath (directory ++ "/")) fileHash :: r.1,
              filePath :: r.2)

/-- `processUpdates` from the CLI source (`src/unnamed/part_000`, lines
171-222).  Differences from the `fileparse.go` version: the matched display
name is emitted as `name[17:]` (a byte slice that panics when the name is
shorter than 17 bytes — modelled as `none`), and after a match
`if knownUpdateFound { break }` leaves the file loop, so no later file is
processed. -/
def processUpdates000 (td : TitleData) (titleID subDirUpdates directory : String) :
    List FSNode → Bool → Option (List Event × List String)
  | [], _ => some ([], [])
  | f :: rest, found =>
    if goExt f.name != ".xbe" then
      processUpdates000 td titleID subDirUpdates directory rest found
    else
      let filePath := subDirUpdates ++ "/" ++ f.name
      match nodeHash f with
      | .err e =>
        match processUpdates000 td titleID subDirUpdates directory rest found with
        | some r => some (Event.hashError f.name e :: r.1, filePath :: r.2)
        | none => none
      | .ok fileHash =>
        match scanKnown td.TitleUpdatesKnown fileHash found with
        | (some nm, _) =>
          if nm.length < 17 then none
          else
            some ([Event.updateKnown td.TitleName titleID (goDrop nm 17)
                (goTrimPre filePath (directory ++ "/")) fileHash],
              [filePath])
        | (none, found2) =>
          if found2 then some ([], [filePath])
          else
            match processUpdates000 td titleID subDirUpdates directory rest found2 with
            | some r =>
              some (Event.updateUnknown td.TitleName titleID
                  (goTrimPre filePath (directory ++ "/")) fileHash :: r.1,
                filePath :: r.2)
            | none => none

/-- A non-nil return value of the walk callback: `filepath.SkipDir` or a real
error. -/
inductive WalkErr where
  | skipDir
  | fail (msg : String)
deriving DecidableEq

/-- Result of (part of) a walk: the classification events emitted, the paths
passed to `getSHA1Hash`, the paths the walk callback was invoked on, and the
callback/walk return value (`none` models a nil error). -/
structure ScanResult where
  events : List Event
  hashes : List String
  trace : List String
  err : Option WalkErr
deriving DecidableEq

/-- Sequencing of a successfully completed part of a walk with its
continuation. -/
def seqRes (r1 r2 : ScanResult) : ScanResult :=
  ⟨r1.events ++ r2.events, r1.hashes ++ r2.hashes, r1.trace ++ r2.trace, r2.err⟩

/-- The `$c` probe of a known title (`fileparse.go` lines 88-100): when the
`$c` child exists and is a directory, run `processDLCContent` on its listing
(`cpath` is `filepath.Join(path, "$c")`); a listing failure of `$c` itself is
the propagated `os.ReadDir` error. -/
def probeC (td : TitleData) (tid : String) (kids : List FSNode)
    (cpath dirRoot : String) : List Event × Option String :=
  match findChild kids "$c" with
  | some (.dir _ cre ckids) =>
    match cre with
    | some e => ([], some e)
    | none => processDLCContentF td tid cpath dirRoot ckids
  | _ => ([], none)

/-- The `$u` probe of a known title (`fileparse.go` lines 102-116): when the
`$u` child exists and is a directory, run `processUpdates` on its listing. -/
def probeU (td : TitleData) (tid : String) (kids : List FSNode)
    (upath dirRoot : String) : List Event × List String × Option String :=
  match findChild kids "$u" with
  | some (.dir _ ure ukids) =>
    match ure with
    | some e => ([], [], some e)
    | none =>
      let u := processUpdatesF td tid upath dirRoot ukids false
      (u.1, u.2, none)
  | _ => ([], [], none)

/-- The body of the walk callback of `checkForContent` (`fileparse.go` lines
71-123) on a directory whose listing succeeded: the 8-character check, the
catalog lookup, the `$c` and `$u` probes and classifier calls, and the
`SkipDir` return for unrecognized titles.  `p` is the directory's path and
`dirRoot` the scan root passed to `checkForContent`. -/
def visitDir (cat : Catalog) (dirRoot nm : String) (kids : List FSNode) (p : String) :
    ScanResult :=
  if nm.length == 8 then
    match lookupTitle cat (goToLower nm) with
    | some td =>
      let c := probeC td (goToLower nm) kids (p ++ "/$c") dirRoot
      match c.2 with
      | some e => ⟨c.1, [], [p], some (.fail e)⟩
      | none =>
        let u := probeU td (goToLower nm) kids (p ++ "/$u") dirRoot
        match u.2.2 with
        | some e => ⟨c.1 ++ u.1, u.2.1, [p], some (.fail e)⟩
        | none => ⟨c.1 ++ u.1, u.2.1, [p], none⟩
    | none =>
      let cEvs := if statIsDir kids "$c" then [Event.unrecDLC (p ++ "/$c")] else []
      let uEvs := if statIsDir kids "$u" then [Event.unrecUpd (p ++ "/$u")] else []
      ⟨cEvs ++ uEvs, [], [p], some .skipDir⟩
  else ⟨[], [], [p], none⟩

mutual

/-- `filepath.Walk`'s recursive `walk` applied to the node at path `p`, with
the callback of `checkForContent`.  A file is just visited; a directory is
listed first (a listing failure is handed to the callback, which returns it),
then the callback runs (`visitDir`), and unless it returned `SkipDir` or an
error the children are walked. -/
def walkTree (cat : Catalog) (dirRoot : String) : FSNode → String → ScanResult
  | .file _ _, p => ⟨[], [], [p], none⟩
  | .dir nm re kids, p =>
    match re with
    | some e => ⟨[], [], [p], some (.fail e)⟩
    | none =>
      let own := visitDir cat dirRoot nm kids p
      match own.err with
      | some _ => own
      | none => seqRes own (walkKids cat dirRoot kids p)

/-- The loop of `walk` over a directory's children (paths `p ++ "/" ++ name`):
a nil child result continues, `SkipDir` from a directory child is swallowed,
`SkipDir` from a file child and real errors stop the loop and propagate. -/
def walkKids (cat : Catalog) (dirRoot : String) : List FSNode → String → ScanResult
  | [], _ => ⟨[], [], [], none⟩
  | c :: cs, p =>
    let r := walkTree cat dirRoot c (p ++ "/" ++ c.name)
    match r.err with
    | none => seqRes r (walkKids cat dirRoot cs p)
    | some .skipDir =>
      if c.isDirN then seqRes ⟨r.events, r.hashes, r.trace, none⟩ (walkKids cat dirRoot cs p)
      else ⟨r.events, r.hashes, r.trace, some .skipDir⟩
    | some (.fail e) => ⟨r.events, r.hashes, r.trace, some (.fail e)⟩

end

/-- `checkForContent` (`fileparse.go` lines 57-126): a missing root is an
immediate error with no traversal; otherwise `filepath.Walk` runs from the
root (whose node is `root` and whose path is `directory`), and a `SkipDir`
escaping to the top is converted to nil. -/
def checkForContent (cat : Catalog) (root : Option FSNode) (directory : String) :
    List Event × List String × List String × Option String :=
  match root with
  | none => ([], [], [], some (directory ++ " directory not found"))
  | some r =>
    let w := walkTree cat directory r directory
    (w.events, w.hashes, w.trace,
      match w.err with
      | some (.fail e) => some e
      | _ => none)

/-- Catalog entry used to exercise the update classifiers: two known-update
maps, the first mapping digest `"aaaa"`, the second digest `"bbbb"`. -/
def tdC1 : TitleData :=
  ⟨"Game", [], [[("aaaa", "ABCDEFGHIJKLMNOPQFoo")], [("bbbb", "QRSTUVWXYZABCDEFGBar")]], []⟩

/-- Claim C1: the update classifier is claimed to classify every `.xbe` file
independently, one event per file.  The code violates this: in `fileparse.go`,
`knownUpdateFound` is never reset, so after `upd1.xbe` matches, the unmatched
`upd2.xbe` produces no event at all (first conjunct), and a later file whose
digest sits in the second known-update map is not even reported as known
(second conjunct); in the CLI source the file loop `break`s after the first
match, so `upd2.xbe` is never hashed or classified (third conjunct). -/
theorem c1_match_suppresses_later_files :
    (processUpdatesF tdC1 "tid00000" "dump/t/$u" "dump"
        [FSNode.file "upd1.xbe" (.ok "aaaa"), FSNode.file "upd2.xbe" (.ok "cccc")] false).1 =
      [Event.updateKnown "Game" "tid00000" "ABCDEFGHIJKLMNOPQFoo" "t/$u/upd1.xbe" "aaaa"] ∧
    (processUpdatesF tdC1 "tid00000" "dump/t/$u" "dump"
        [FSNode.file "upd1.xbe" (.ok "aaaa"), FSNode.file "upd2.xbe" (.ok "bbbb")] false).1 =
      [Event.updateKnown "Game" "tid00000" "ABCDEFGHIJKLMNOPQFoo" "t/$u/upd1.xbe" "aaaa"] ∧
    processUpdates000 tdC1 "tid00000" "dump/t/$u" "dump"
        [FSNode.file "upd1.xbe" (.ok "aaaa"), FSNode.file "upd2.xbe" (.ok "cccc")] false =
      some ([Event.updateKnown "Game" "tid00000" "Foo" "t/$u/upd1.xbe" "aaaa"],
        ["dump/t/$u/upd1.xbe"]) :=
  ⟨by decide, by decide, by decide⟩

/-- Catalog entry whose single known update maps digest `"feedface"` to a
display name of length 27. -/
def tdC2 : TitleData :=
  ⟨"Game B", [], [[("feedface", "ABCDEFGHIJKLMNOPQUpdate 1.0")]], []⟩

/-- Claim C2, counterexample: in the CLI update classifier the `UpdateKnown`
event for a matched `.xbe` file carries `name[17:]`, not the display name the
catalog maps the digest to — here `"Update 1.0"` instead of the mapped
`"ABCDEFGHIJKLMNOPQUpdate 1.0"`. -/
theorem c2_cex_name_modified :
    processUpdates000 tdC2 "4d530064" "dump/4d530064/$u" "dump"
        [FSNode.file "update.xbe" (.ok "feedface")] false =
      some ([Event.updateKnown "Game B" "4d530064" "Update 1.0"
          "4d530064/$u/update.xbe" "feedface"],
        ["dump/4d530064/$u/update.xbe"]) ∧
    ("Update 1.0" : String) ≠ "ABCDEFGHIJKLMNOPQUpdate 1.0" :=
  ⟨by decide, by decide⟩

/-- Claim C2, amended: a matched `.xbe` file classified while
`knownUpdateFound` is still false gets an `UpdateKnown` event with exactly the
mapped display name, the root-relative path and the digest in the
`fileparse.go` classifier; the CLI classifier emits the mapped name with its
first 17 bytes removed (and then stops). -/
theorem c2_amended_known_payload (td : TitleData) (tid sub dir fname h nm : String)
    (rest : List FSNode)
    (hx : goExt fname = ".xbe")
    (hm : scanKnown td.TitleUpdatesKnown h false = (some nm, true)) :
    (processUpdatesF td tid sub dir (FSNode.file fname (.ok h) :: rest) false).1 =
      Event.updateKnown td.TitleName tid nm (goTrimPre (sub ++ "/" ++ fname) (dir ++ "/")) h ::
        (processUpdatesF td tid sub dir rest true).1 ∧
    (17 ≤ nm.length →
      processUpdates000 td tid sub dir (FSNode.file fname (.ok h) :: rest) false =
        some ([Event.updateKnown td.TitleName tid (goDrop nm 17)
            (goTrimPre (sub ++ "/" ++ fname) (dir ++ "/")) h],
          [sub ++ "/" ++ fname])) := by
  constructor
  · simp [processUpdatesF, FSNode.name, nodeHash, hx, hm]
  · intro hlen
    simp [processUpdates000, FSNode.name, nodeHash, hx, hm,
      show ¬(nm.length < 17) from by omega]

/-- Witness for `c2_amended_known_payload` at a concrete input. -/
theorem c2_witness :
    (processUpdatesF tdC2 "4d530064" "dump/4d530064/$u" "dump"
        [FSNode.file "update.xbe" (.ok "feedface")] false).1 =
      Event.updateKnown "Game B" "4d530064" "ABCDEFGHIJKLMNOPQUpdate 1.0"
          (goTrimPre ("dump/4d530064/$u" ++ "/" ++ "update.xbe") ("dump" ++ "/")) "feedface" ::
        (processUpdatesF tdC2 "4d530064" "dump/4d530064/$u" "dump" [] true).1 :=
  (c2_amended_known_payload tdC2 "4d530064" "dump/4d530064/$u" "dump" "update.xbe" "feedface"
    "ABCDEFGHIJKLMNOPQUpdate 1.0" [] (by decide) (by decide)).1

/-- Catalog entry with no known content ids. -/
def tdC3 : TitleData := ⟨"Game C", [], [], []⟩

/-- Claim C3, counterexample: a qualifying `$c` subdirectory whose ContentID
is unknown is reported with the full path including the scan root (`"dump"`),
because `processDLCContent` prints the `Unknown content` message before
`strings.TrimPrefix` runs; the claim says the path is root-relative. -/
theorem c3_cex_unknown_path_absolute :
    (processDLCContentF tdC3 "12345678" "dump/12345678/$c" "dump"
        [FSNode.dir "weird9999" none [FSNode.file "ContentMeta.xbx" (.ok "")]]).1 =
      [Event.contentUnknown "dump/12345678/$c/weird9999"] ∧
    ("dump/12345678/$c/weird9999" : String) ≠ "12345678/$c/weird9999" :=
  ⟨by decide, by decide⟩

/-- Claim C3, amended: `ContentUnarchived` events carry the root-relative
(trimmed) path, but `ContentUnknown` events carry the un-stripped path with
the scan root still prefixed. -/
theorem c3_amended_paths (td : TitleData) (tid sub dir dname : String)
    (dkids rest : List FSNode) (hq : hasContentMetaXbx dkids = true) :
    (containsGo td.ContentIDs (goToLower dname) = false →
      processDLCContentF td tid sub dir (FSNode.dir dname none dkids :: rest) =
        (Event.contentUnknown (sub ++ "/" ++ dname) ::
            (processDLCContentF td tid sub dir rest).1,
          (processDLCContentF td tid sub dir rest).2)) ∧
    (containsGo td.ContentIDs (goToLower dname) = true →
      findArchivedGo td.Archived (goToLower dname) = "" →
      processDLCContentF td tid sub dir (FSNode.dir dname none dkids :: rest) =
        (Event.contentUnarchived td.TitleName
              (goTrimPre (sub ++ "/" ++ dname) (dir ++ "/")) ::
            (processDLCContentF td tid sub dir rest).1,
          (processDLCContentF td tid sub dir rest).2)) := by
  constructor
  · intro h1
    simp [processDLCContentF, hq, h1]
  · intro h1 h2
    simp [processDLCContentF, hq, h1, h2]

/-- Witness for `c3_amended_paths` at a concrete input (spec scenario 1:
known, unarchived content gets the trimmed path). -/
theorem c3_witness :
    processDLCContentF ⟨"Game A", ["dlc0001"], [], []⟩ "4d530064" "dump/4d530064/$c" "dump"
        [FSNode.dir "dlc0001" none [FSNode.file "contentmeta.xbx" (.ok "")]] =
      (Event.contentUnarchived "Game A"
            (goTrimPre ("dump/4d530064/$c" ++ "/" ++ "dlc0001") ("dump" ++ "/")) ::
          (processDLCContentF ⟨"Game A", ["dlc0001"], [], []⟩ "4d530064" "dump/4d530064/$c"
              "dump" []).1,
        (processDLCContentF ⟨"Game A", ["dlc0001"], [], []⟩ "4d530064" "dump/4d530064/$c"
            "dump" []).2) :=
  (c3_amended_paths ⟨"Game A", ["dlc0001"], [], []⟩ "4d530064" "dump/4d530064/$c" "dump"
    "dlc0001" [FSNode.file "contentmeta.xbx" (.ok "")] [] (by decide)).2 (by decide) (by decide)

/-- Claim C5: a `$c` subdirectory (readable, here with listing `dkids`) that
contains no non-directory entry whose name contains `"contentmeta.xbx"`
case-insensitively is silently skipped: removing it from the `$c` listing does
not change the classifier's result, so it produces no event of any kind. -/
theorem c5_nonqualifying_silent (td : TitleData) (titleID subDirDLC directory dname : String)
    (dkids : List FSNode) (pre post : List FSNode)
    (hq : hasContentMetaXbx dkids = false) :
    processDLCContentF td titleID subDirDLC directory
        (pre ++ FSNode.dir dname none dkids :: post) =
      processDLCContentF td titleID subDirDLC directory (pre ++ post) := by
  induction pre with
  | nil => simp [processDLCContentF, hq]
  | cons c cs ih =>
    cases c with
    | file n h => simpa [processDLCContentF] using ih
    | dir n re ks =>
      cases re with
      | some e => simp [processDLCContentF]
      | none => simp [processDLCContentF, ih]

/-- Witness for `c5_nonqualifying_silent` at a concrete input: a subdirectory
holding only `readme.txt` yields exactly the events of the listing without
it. -/
theorem c5_witness :
    processDLCContentF ⟨"Game A", ["dlc0001"], [], []⟩ "4d530064" "dump/4d530064/$c" "dump"
        ([] ++ FSNode.dir "noqualify" none [FSNode.file "readme.txt" (.ok "")] ::
          [FSNode.dir "dlc0001" none [FSNode.file "contentmeta.xbx" (.ok "")]]) =
      processDLCContentF ⟨"Game A", ["dlc0001"], [], []⟩ "4d530064" "dump/4d530064/$c" "dump"
        ([] ++ [FSNode.dir "dlc0001" none [FSNode.file "contentmeta.xbx" (.ok "")]]) :=
  c5_nonqualifying_silent ⟨"Game A", ["dlc0001"], [], []⟩ "4d530064" "dump/4d530064/$c" "dump"
    "noqualify" [FSNode.file "readme.txt" (.ok "")] []
    [FSNode.dir "dlc0001" none [FSNode.file "contentmeta.xbx" (.ok "")]] (by decide)

/-- Claim C7: ContentID membership (the `contains` helper used by
`processDLCContent`) is exact string equality against the elements of
`ContentIDs`: it returns true exactly for members, and any non-member —
in particular a proper substring or superstring of a member — is rejected. -/
theorem c7_exact_membership (ids : List String) (c : String) :
    (containsGo ids c = true ↔ c ∈ ids) ∧ (c ∉ ids → containsGo ids c = false) := by
  have key : containsGo ids c = true ↔ c ∈ ids := by
    induction ids with
    | nil => simp [containsGo]
    | cons i rest ih =>
      by_cases h : i = c
      · simp [containsGo, h]
      · simp [containsGo, h, ih, Ne.symm h]
  refine ⟨key, fun hn => ?_⟩
  cases hcg : containsGo ids c
  · rfl
  · exact absurd (key.mp hcg) hn

/-- Witness for `c7_exact_membership`: `"abcd"` (proper substring) and
`"abcd12345"` (proper superstring) of the known id `"abcd1234"` do not count
as known. -/
theorem c7_witness :
    containsGo ["abcd1234"] "abcd" = false ∧ containsGo ["abcd1234"] "abcd12345" = false :=
  ⟨(c7_exact_membership ["abcd1234"] "abcd").2 (by decide),
    (c7_exact_membership ["abcd1234"] "abcd12345").2 (by decide)⟩

/-- A name returned by the known-update scan is a value stored in one of the
`TitleUpdatesKnown` maps. -/
theorem scanKnown_name_mem (maps : List (List (String × String))) (h : String)
    (found : Bool) (nm : String) (hs : (scanKnown maps h found).1 = some nm) :
    ∃ m ∈ maps, ∃ k, (k, nm) ∈ m := by
  induction maps generalizing found with
  | nil => simp [scanKnown] at hs
  | cons m ms ih =>
    rw [scanKnown] at hs
    cases hf : List.find? (fun p => p.1 == h) m with
    | some p =>
      rw [hf] at hs
      simp only [Prod.fst] at hs
      have hp : p ∈ m := List.mem_of_find?_eq_some hf
      have : p.2 = nm := by simpa using hs
      exact ⟨m, List.mem_cons_self m ms, p.1, by simpa [← this] using hp⟩
    | none =>
      rw [hf] at hs
      cases found with
      | true => simp at hs
      | false =>
        obtain ⟨m2, hm2, w⟩ := ih false (by simpa using hs)
        exact ⟨m2, List.mem_cons_of_mem m hm2, w⟩

/-- Claim C9: the CLI update classifier emits the matched display name as
`name[17:]`, which panics when that name has fewer than 17 bytes; the
classifier is total whenever every display name stored in
`TitleUpdatesKnown` has length at least 17 (first conjunct), and a catalog
whose matched name is shorter — here `"Update 1.0"` — makes it panic on a
matching file (second conjunct). -/
theorem c9_seventeen_precondition :
    (∀ (td : TitleData) (tid sub dir : String) (files : List FSNode) (found : Bool),
        (∀ m ∈ td.TitleUpdatesKnown, ∀ p ∈ m, 17 ≤ p.2.length) →
        (processUpdates000 td tid sub dir files found).isSome = true) ∧
    processUpdates000 ⟨"G", [], [[("h1", "Update 1.0")]], []⟩ "t" "s" "d"
        [FSNode.file "a.xbe" (.ok "h1")] false = none := by
  constructor
  · intro td tid sub dir files found hlen
    induction files generalizing found with
    | nil => simp [processUpdates000]
    | cons f rest ih =>
      rw [processUpdates000]
      split
      · exact ih found
      · cases hh : nodeHash f with
        | err e =>
          have := ih found
          cases hr : processUpdates000 td tid sub dir rest found with
          | none => rw [hr] at this; simp at this
          | some r => simp [hr]
        | ok fh =>
          cases hsk : scanKnown td.TitleUpdatesKnown fh found with
          | mk onm f2 =>
            cases onm with
            | some nm =>
              obtain ⟨m, hm, k, hk⟩ := scanKnown_name_mem td.TitleUpdatesKnown fh found nm
                (by rw [hsk])
              have h17 : 17 ≤ nm.length := hlen m hm (k, nm) hk
              simp [hsk, show ¬(nm.length < 17) from by omega]
            | none =>
              cases f2 with
              | true => simp [hsk]
              | false =>
                have := ih false
                cases hr : processUpdates000 td tid sub dir rest false with
                | none => rw [hr] at this; simp at this
                | some r => simp [hsk, hr]
  · decide

/-- Witness for `c9_seventeen_precondition` at a concrete input: with every
display name of length at least 17, the classifier returns a result. -/
theorem c9_witness :
    (processUpdates000 ⟨"G", [], [[("k1", "ABCDEFGHIJKLMNOPQR")]], []⟩ "t" "s" "d"
        [FSNode.file "b.xbe" (.ok "k1")] false).isSome = true :=
  c9_seventeen_precondition.1 ⟨"G", [], [[("k1", "ABCDEFGHIJKLMNOPQR")]], []⟩ "t" "s" "d"
    [FSNode.file "b.xbe" (.ok "k1")] false (by decide)

/-- Claim C4: walking a directory whose 8-character name is not in the
catalog emits exactly one "unrecognized" event per existing `$c` / `$u`
subdirectory, computes no hash, visits nothing beneath the directory (the
callback trace is just the directory itself) and returns `SkipDir`. -/
theorem c4_unrecognized_probe_no_descent (cat : Catalog) (dirRoot nm : String)
    (kids : List FSNode) (p : String) (h8 : nm.length = 8)
    (hk : lookupTitle cat (goToLower nm) = none) :
    walkTree cat dirRoot (.dir nm none kids) p =
      ⟨(if statIsDir kids "$c" then [Event.unrecDLC (p ++ "/$c")] else []) ++
          (if statIsDir kids "$u" then [Event.unrecUpd (p ++ "/$u")] else []),
        [], [p], some .skipDir⟩ := by
  rw [walkTree]
  simp [visitDir, h8, hk]

/-- Witness for `c4_unrecognized_probe_no_descent`: an unknown title holding a
`$u` directory with a hashable file yields exactly the one probe event, no
hash, and no visit below the title directory. -/
theorem c4_witness :
    walkTree [] "dump"
        (.dir "zzzzzzzz" none [FSNode.dir "$u" none [FSNode.file "patch.xbe" (.ok "ab")]])
        "dump/zzzzzzzz" =
      ⟨[Event.unrecUpd "dump/zzzzzzzz/$u"], [], ["dump/zzzzzzzz"], some .skipDir⟩ := by
  rw [c4_unrecognized_probe_no_descent [] "dump" "zzzzzzzz"
    [FSNode.dir "$u" none [FSNode.file "patch.xbe" (.ok "ab")]] "dump/zzzzzzzz"
    (by decide) (by decide)]
  decide

/-- Claim C10: the prune of unrecognized 8-character directories is
unconditional: even with no `$c` or `$u` subdirectory (so no event at all),
`SkipDir` is returned and nothing beneath the directory is visited, hashed or
classified, wherever in the tree the directory sits (`p`, `kids`
arbitrary). -/
theorem c10_prune_unconditional (cat : Catalog) (dirRoot nm : String)
    (kids : List FSNode) (p : String) (h8 : nm.length = 8)
    (hk : lookupTitle cat (goToLower nm) = none)
    (hc : statIsDir kids "$c" = false) (hu : statIsDir kids "$u" = false) :
    walkTree cat dirRoot (.dir nm none kids) p = ⟨[], [], [p], some .skipDir⟩ := by
  rw [walkTree]
  simp [visitDir, h8, hk, hc, hu]

/-- Witness for `c10_prune_unconditional`: an unknown title directory holding
only an (unvisited) 8-character subdirectory produces no event and no visit
beneath it. -/
theorem c10_witness :
    walkTree [] "dump"
        (.dir "zzzzzzzz" none [FSNode.dir "subdir12" none [FSNode.file "a.xbe" (.ok "ab")]])
        "dump/zzzzzzzz" =
      ⟨[], [], ["dump/zzzzzzzz"], some .skipDir⟩ :=
  c10_prune_unconditional [] "dump" "zzzzzzzz"
    [FSNode.dir "subdir12" none [FSNode.file "a.xbe" (.ok "ab")]] "dump/zzzzzzzz"
    (by decide) (by decide) (by decide) (by decide)

/-- Claim C8: only structural failures abort a scan.  A missing root fails
immediately with no traversal (first conjunct); a directory whose enumeration
fails propagates that error, visiting nothing beneath it (second conjunct),
also from inside a larger walk, where it stops the siblings too (third
conjunct), and such a walk error becomes the error `checkForContent` returns
(fourth conjunct); by contrast a hash failure on one `.xbe` file is recovered
locally — a `HashError` event is emitted and processing continues with the
remaining files (fifth conjunct). -/
theorem c8_structural_aborts_hash_recovers (cat : Catalog) (directory : String) :
    checkForContent cat none directory =
      ([], [], [], some (directory ++ " directory not found")) ∧
    (∀ nm e kids p, walkTree cat directory (FSNode.dir nm (some e) kids) p =
      ⟨[], [], [p], some (.fail e)⟩) ∧
    (∀ nm p e bname bkids sibs, nm.length ≠ 8 →
      walkTree cat directory (FSNode.dir nm none (FSNode.dir bname (some e) bkids :: sibs)) p =
        ⟨[], [], [p, p ++ "/" ++ bname], some (.fail e)⟩) ∧
    (∀ r e, (walkTree cat directory r directory).err = some (.fail e) →
      (checkForContent cat (some r) directory).2.2.2 = some e) ∧
    (∀ (td : TitleData) (tid sub dir fname msg : String) (rest : List FSNode) (found : Bool),
      goExt fname = ".xbe" →
      processUpdatesF td tid sub dir (FSNode.file fname (.err msg) :: rest) found =
        (Event.hashError fname msg :: (processUpdatesF td tid sub dir rest found).1,
          (sub ++ "/" ++ fname) :: (processUpdatesF td tid sub dir rest found).2)) := by
  refine ⟨rfl, ?_, ?_, ?_, ?_⟩
  · intro nm e kids p
    rw [walkTree]
  · intro nm p e bname bkids sibs h
    rw [walkTree]
    simp [visitDir, walkKids, walkTree, seqRes, FSNode.name, h]
  · intro r e h
    simp [checkForContent, h]
  · intro td tid sub dir fname msg rest found hx
    simp [processUpdatesF, FSNode.name, nodeHash, hx]

/-- Witness for `c8_structural_aborts_hash_recovers`: a hash failure on
`a.xbe` yields a `HashError` event followed by the classification of the
remaining listing. -/
theorem c8_witness :
    processUpdatesF ⟨"G", [], [], []⟩ "t" "dump/t/$u" "dump"
        [FSNode.file "a.xbe" (.err "read failed"), FSNode.file "b.xbe" (.ok "hh")] false =
      (Event.hashError "a.xbe" "read failed" ::
          (processUpdatesF ⟨"G", [], [], []⟩ "t" "dump/t/$u" "dump"
              [FSNode.file "b.xbe" (.ok "hh")] false).1,
        ("dump/t/$u" ++ "/" ++ "a.xbe") ::
          (processUpdatesF ⟨"G", [], [], []⟩ "t" "dump/t/$u" "dump"
              [FSNode.file "b.xbe" (.ok "hh")] false).2) :=
  (c8_structural_aborts_hash_recovers [] "dump").2.2.2.2 ⟨"G", [], [], []⟩ "t" "dump/t/$u"
    "dump" "a.xbe" "read failed" [FSNode.file "b.xbe" (.ok "hh")] false (by decide)

/-- An event with its path component blanked out; all other payload (names,
title ids, digests, error messages) is kept. -/
def erasePath : Event → Event
  | .updateKnown t i n _ h => .updateKnown t i n "" h
  | .updateUnknown t i _ h => .updateUnknown t i "" h
  | .hashError f m => .hashError f m
  | .contentUnknown _ => .contentUnknown ""
  | .contentArchived n => .contentArchived n
  | .contentUnarchived t _ => .contentUnarchived t ""
  | .unrecDLC _ => .unrecDLC ""
  | .unrecUpd _ => .unrecUpd ""

/-- Event list with paths blanked. -/
def eraseEvs (l : List Event) : List Event := l.map erasePath

/-- The classification outcome of a walk result: its events with paths
blanked, how many hash computations ran, how many callback visits happened,
and the control verdict. -/
def eraseRes (r : ScanResult) : List Event × Nat × Nat × Option WalkErr :=
  (eraseEvs r.events, r.hashes.length, r.trace.length, r.err)

/-- `eraseRes` respects walk sequencing. -/
theorem seqRes_erase {a1 a2 b1 b2 : ScanResult} (ha : eraseRes a1 = eraseRes a2)
    (hb : eraseRes b1 = eraseRes b2) : eraseRes (seqRes a1 b1) = eraseRes (seqRes a2 b2) := by
  have ha1 : eraseEvs a1.events = eraseEvs a2.events := congrArg (fun x => x.1) ha
  have ha2 : a1.hashes.length = a2.hashes.length := congrArg (fun x => x.2.1) ha
  have ha3 : a1.trace.length = a2.trace.length := congrArg (fun x => x.2.2.1) ha
  have hb1 : eraseEvs b1.events = eraseEvs b2.events := congrArg (fun x => x.1) hb
  have hb2 : b1.hashes.length = b2.hashes.length := congrArg (fun x => x.2.1) hb
  have hb3 : b1.trace.length = b2.trace.length := congrArg (fun x => x.2.2.1) hb
  have hb4 : b1.err = b2.err := congrArg (fun x => x.2.2.2) hb
  simp only [eraseRes, seqRes, eraseEvs, List.map_append, List.length_append] at ha1 ha2 ha3 hb1 hb2 hb3 ⊢
  rw [ha1, ha2, ha3, hb1, hb2, hb3, hb4]

/-- The content classifier's outcome does not depend on the `$c` path it is
given: changing `subDirDLC` changes only the path components of events. -/
theorem processDLC_path_erase (td : TitleData) (tid s1 s2 dir : String) (l : List FSNode) :
    eraseEvs (processDLCContentF td tid s1 dir l).1 =
      eraseEvs (processDLCContentF td tid s2 dir l).1 ∧
    (processDLCContentF td tid s1 dir l).2 = (processDLCContentF td tid s2 dir l).2 := by
  induction l with
  | nil => simp [processDLCContentF]
  | cons c rest ih =>
    obtain ⟨ih1, ih2⟩ := ih
    simp only [eraseEvs] at ih1
    cases c with
    | file n h => simpa [processDLCContentF, eraseEvs] using ⟨ih1, ih2⟩
    | dir n re ks =>
      cases re with
      | some e => simp [processDLCContentF]
      | none =>
        by_cases hq : hasContentMetaXbx ks = true
        · by_cases hc : containsGo td.ContentIDs (goToLower n) = true
          · by_cases ha : (findArchivedGo td.Archived (goToLower n) == "") = true
            · constructor
              · simp [processDLCContentF, hq, hc, ha, eraseEvs, erasePath, ih1]
              · simp [processDLCContentF, hq, hc, ha, ih2]
            · constructor
              · simp [processDLCContentF, hq, hc, ha, eraseEvs, erasePath, ih1]
              · simp [processDLCContentF, hq, hc, ha, ih2]
          · constructor
            · simp [processDLCContentF, hq, hc, eraseEvs, erasePath, ih1]
            · simp [processDLCContentF, hq, hc, ih2]
        · constructor
          · simp [processDLCContentF, hq, eraseEvs, ih1]
          · simp [processDLCContentF, hq, ih2]

/-- The update classifier's outcome does not depend on the `$u` path it is
given: changing `subDirUpdates` changes only event paths and the hashed
paths, not which events fire or how many hashes run. -/
theorem processUpd_path_erase (td : TitleData) (tid s1 s2 dir : String) (l : List FSNode)
    (found : Bool) :
    eraseEvs (processUpdatesF td tid s1 dir l found).1 =
      eraseEvs (processUpdatesF td tid s2 dir l found).1 ∧
    (processUpdatesF td tid s1 dir l found).2.length =
      (processUpdatesF td tid s2 dir l found).2.length := by
  induction l generalizing found with
  | nil => simp [processUpdatesF]
  | cons f rest ih =>
    by_cases hx : (goExt f.name != ".xbe") = true
    · simpa [processUpdatesF, hx] using ih found
    · cases hh : nodeHash f with
      | err e =>
        obtain ⟨ih1, ih2⟩ := ih found
        simp only [eraseEvs] at ih1
        constructor
        · simp [processUpdatesF, hx, hh, eraseEvs, erasePath, ih1]
        · simp [processUpdatesF, hx, hh, ih2]
      | ok fh =>
        cases hsk : scanKnown td.TitleUpdatesKnown fh found with
        | mk onm f2 =>
          cases onm with
          | some nm =>
            obtain ⟨ih1, ih2⟩ := ih true
            simp only [eraseEvs] at ih1
            constructor
            · simp [processUpdatesF, hx, hh, hsk, eraseEvs, erasePath, ih1]
            · simp [processUpdatesF, hx, hh, hsk, ih2]
          | none =>
            obtain ⟨ih1, ih2⟩ := ih f2
            simp only [eraseEvs] at ih1
            cases f2 with
            | true =>
              constructor
              · simp [processUpdatesF, hx, hh, hsk, eraseEvs, ih1]
              · simp [processUpdatesF, hx, hh, hsk, ih2]
            | false =>
              constructor
              · simp [processUpdatesF, hx, hh, hsk, eraseEvs, erasePath, ih1]
              · simp [processUpdatesF, hx, hh, hsk, ih2]

/-- The `$c` probe's outcome does not depend on the path under which the `$c`
directory is reported. -/
theorem probeC_erase (td : TitleData) (tid : String) (kids : List FSNode)
    (c1 c2 dirRoot : String) :
    eraseEvs (probeC td tid kids c1 dirRoot).1 = eraseEvs (probeC td tid kids c2 dirRoot).1 ∧
    (probeC td tid kids c1 dirRoot).2 = (probeC td tid kids c2 dirRoot).2 := by
  cases hf : findChild kids "$c" with
  | none => simp [probeC, hf]
  | some n =>
    cases n with
    | file a b => simp [probeC, hf]
    | dir a re ks =>
      cases re with
      | some e => simp [probeC, hf]
      | none => simpa [probeC, hf] using processDLC_path_erase td tid c1 c2 dirRoot ks

/-- The `$u` probe's outcome does not depend on the path under which the `$u`
directory is reported. -/
theorem probeU_erase (td : TitleData) (tid : String) (kids : List FSNode)
    (u1 u2 dirRoot : String) :
    eraseEvs (probeU td tid kids u1 dirRoot).1 = eraseEvs (probeU td tid kids u2 dirRoot).1 ∧
    (probeU td tid kids u1 dirRoot).2.1.length = (probeU td tid kids u2 dirRoot).2.1.length ∧
    (probeU td tid kids u1 dirRoot).2.2 = (probeU td tid kids u2 dirRoot).2.2 := by
  cases hf : findChild kids "$u" with
  | none => simp [probeU, hf]
  | some n =>
    cases n with
    | file a b => simp [probeU, hf]
    | dir a re ks =>
      cases re with
      | some e => simp [probeU, hf]
      | none =>
        have h := processUpd_path_erase td tid u1 u2 dirRoot ks false
        simpa [probeU, hf] using ⟨h.1, h.2⟩

/-- The walk callback's classification outcome at a directory does not depend
on the path of that directory. -/
theorem visitDir_path_erase (cat : Catalog) (dirRoot nm : String) (kids : List FSNode)
    (p q : String) :
    eraseRes (visitDir cat dirRoot nm kids p) = eraseRes (visitDir cat dirRoot nm kids q) := by
  by_cases h8 : (nm.length == 8) = true
  · cases hl : lookupTitle cat (goToLower nm) with
    | none =>
      by_cases hsc : statIsDir kids "$c" = true <;> by_cases hsu : statIsDir kids "$u" = true <;>
        simp [visitDir, h8, hl, hsc, hsu, eraseRes, eraseEvs, erasePath]
    | some td =>
      obtain ⟨hc1, hc2⟩ := probeC_erase td (goToLower nm) kids (p ++ "/$c") (q ++ "/$c") dirRoot
      obtain ⟨hu1, hu2, hu3⟩ := probeU_erase td (goToLower nm) kids (p ++ "/$u") (q ++ "/$u") dirRoot
      simp only [eraseEvs] at hc1 hu1
      simp only [visitDir, h8, if_true, hl]
      cases hcp : (probeC td (goToLower nm) kids (p ++ "/$c") dirRoot).2 with
      | some e =>
        have hcq : (probeC td (goToLower nm) kids (q ++ "/$c") dirRoot).2 = some e := by
          rw [← hc2]; exact hcp
        simp [hcp, hcq, eraseRes, eraseEvs, hc1]
      | none =>
        have hcq : (probeC td (goToLower nm) kids (q ++ "/$c") dirRoot).2 = none := by
          rw [← hc2]; exact hcp
        simp only [hcp, hcq]
        cases hup : (probeU td (goToLower nm) kids (p ++ "/$u") dirRoot).2.2 with
        | some e =>
          have huq : (probeU td (goToLower nm) kids (q ++ "/$u") dirRoot).2.2 = some e := by
            rw [← hu3]; exact hup
          simp [hup, huq, eraseRes, eraseEvs, hc1, hu1, hu2]
        | none =>
          have huq : (probeU td (goToLower nm) kids (q ++ "/$u") dirRoot).2.2 = none := by
            rw [← hu3]; exact hup
          simp [hup, huq, eraseRes, eraseEvs, hc1, hu1, hu2]
  · simp [visitDir, h8, eraseRes, eraseEvs]

/-- Replacing the control verdict respects `eraseRes`-equality of the rest of
the result. -/
theorem eraseRes_setErr {r1 r2 : ScanResult} (h : eraseRes r1 = eraseRes r2)
    (z : Option WalkErr) :
    eraseRes ⟨r1.events, r1.hashes, r1.trace, z⟩ = eraseRes ⟨r2.events, r2.hashes, r2.trace, z⟩ := by
  have h1 := congrArg (fun x => x.1) h
  have h2 := congrArg (fun x => x.2.1) h
  have h3 := congrArg (fun x => x.2.2.1) h
  simp only [eraseRes] at h1 h2 h3 ⊢
  rw [h1, h2, h3]

/-- Joint path-irrelevance of the walk, by induction on the size of the
subtree: the classification outcome (events up to paths, hash count, visit
count, verdict) of walking a node or a child list does not depend on the path
prefix it is walked under. -/
theorem walk_path_erase_aux (cat : Catalog) (dirRoot : String) :
    ∀ k : Nat,
      (∀ n : FSNode, sizeOf n ≤ k → ∀ p q : String,
        eraseRes (walkTree cat dirRoot n p) = eraseRes (walkTree cat dirRoot n q)) ∧
      (∀ l : List FSNode, sizeOf l ≤ k → ∀ p q : String,
        eraseRes (walkKids cat dirRoot l p) = eraseRes (walkKids cat dirRoot l q)) := by
  intro k
  induction k with
  | zero =>
    constructor
    · intro n hn
      exfalso
      cases n <;> simp at hn
    · intro l hl
      exfalso
      cases l <;> simp at hl
  | succ k ih =>
    obtain ⟨ihN, ihL⟩ := ih
    constructor
    · intro n hn p q
      cases n with
      | file a b => simp [walkTree, eraseRes, eraseEvs]
      | dir nm re kids =>
        cases re with
        | some e => simp [walkTree, eraseRes, eraseEvs]
        | none =>
          have hkids : sizeOf kids ≤ k := by
            simp [FSNode.dir.sizeOf_spec] at hn
            omega
          have hvis := visitDir_path_erase cat dirRoot nm kids p q
          have hverr : (visitDir cat dirRoot nm kids p).err =
              (visitDir cat dirRoot nm kids q).err := congrArg (fun x => x.2.2.2) hvis
          rw [walkTree, walkTree]
          cases hep : (visitDir cat dirRoot nm kids p).err with
          | some e2 =>
            have heq : (visitDir cat dirRoot nm kids q).err = some e2 := by
              rw [← hverr]; exact hep
            simp only [hep, heq]
            exact hvis
          | none =>
            have heq : (visitDir cat dirRoot nm kids q).err = none := by
              rw [← hverr]; exact hep
            simp only [hep, heq]
            exact seqRes_erase hvis (ihL kids hkids p q)
    · intro l hl p q
      cases l with
      | nil => simp [walkKids]
      | cons c cs =>
        have hc : sizeOf c ≤ k := by
          simp at hl
          omega
        have hcs : sizeOf cs ≤ k := by
          simp at hl
          omega
        have hr := ihN c hc (p ++ "/" ++ c.name) (q ++ "/" ++ c.name)
        have hrerr : (walkTree cat dirRoot c (p ++ "/" ++ c.name)).err =
            (walkTree cat dirRoot c (q ++ "/" ++ c.name)).err :=
          congrArg (fun x => x.2.2.2) hr
        rw [walkKids, walkKids]
        cases hep : (walkTree cat dirRoot c (p ++ "/" ++ c.name)).err with
        | none =>
          have heq : (walkTree cat dirRoot c (q ++ "/" ++ c.name)).err = none := by
            rw [← hrerr]; exact hep
          simp only [hep, heq]
          exact seqRes_erase hr (ihL cs hcs p q)
        | some w =>
          cases w with
          | skipDir =>
            have heq : (walkTree cat dirRoot c (q ++ "/" ++ c.name)).err = some .skipDir := by
              rw [← hrerr]; exact hep
            simp only [hep, heq]
            by_cases hd : c.isDirN = true
            · simp only [hd, if_true]
              exact seqRes_erase (eraseRes_setErr hr none) (ihL cs hcs p q)
            · simp only [hd, if_false, Bool.not_eq_true] at hd ⊢
              simp only [hd, Bool.false_eq_true, if_false]
              exact eraseRes_setErr hr (some .skipDir)
          | fail e =>
            have heq : (walkTree cat dirRoot c (q ++ "/" ++ c.name)).err = some (.fail e) := by
              rw [← hrerr]; exact hep
            simp only [hep, heq]
            exact eraseRes_setErr hr (some (.fail e))

/-- Path-irrelevance of a single subtree walk. -/
theorem walkTree_path_erase (cat : Catalog) (dirRoot : String) (n : FSNode) (p q : String) :
    eraseRes (walkTree cat dirRoot n p) = eraseRes (walkTree cat dirRoot n q) :=
  (walk_path_erase_aux cat dirRoot (sizeOf n)).1 n (Nat.le_refl _) p q

/-- Claim C6: title classification of an 8-character directory depends only on
the lowercase form of its name.  Two names equal up to letter case resolve to
the same catalog entry, and walking the same subtree under either name
produces the same classification outcome: the same events up to the path
strings (which contain the original-case name), the same number of hash
computations and visits, and the same control verdict. -/
theorem c6_case_insensitive_title (cat : Catalog) (dirRoot q n1 n2 : String)
    (re : Option String) (kids : List FSNode)
    (h1 : n1.length = 8) (h2 : n2.length = 8) (hl : goToLower n1 = goToLower n2) :
    lookupTitle cat (goToLower n1) = lookupTitle cat (goToLower n2) ∧
    eraseRes (walkTree cat dirRoot (.dir n1 re kids) (q ++ "/" ++ n1)) =
      eraseRes (walkTree cat dirRoot (.dir n2 re kids) (q ++ "/" ++ n2)) := by
  refine ⟨by rw [hl], ?_⟩
  have hname : walkTree cat dirRoot (.dir n1 re kids) (q ++ "/" ++ n2) =
      walkTree cat dirRoot (.dir n2 re kids) (q ++ "/" ++ n2) := by
    cases re with
    | some e => rw [walkTree, walkTree]
    | none =>
      have hv : visitDir cat dirRoot n1 kids (q ++ "/" ++ n2) =
          visitDir cat dirRoot n2 kids (q ++ "/" ++ n2) := by
        simp only [visitDir, h1, h2, hl]
      rw [walkTree, walkTree, hv]
  calc eraseRes (walkTree cat dirRoot (.dir n1 re kids) (q ++ "/" ++ n1))
      = eraseRes (walkTree cat dirRoot (.dir n1 re kids) (q ++ "/" ++ n2)) :=
        walkTree_path_erase cat dirRoot _ _ _
    _ = eraseRes (walkTree cat dirRoot (.dir n2 re kids) (q ++ "/" ++ n2)) := by rw [hname]

/-- Catalog with the single lowercase title id `"abcd1234"`. -/
def catC6 : Catalog :=
  [("abcd1234", ⟨"Game D", ["dlcpak01"], [[("k9", "Update Pack Alpha0001")]], []⟩)]

/-- Witness for `c6_case_insensitive_title`: `"ABCD1234"` and `"abcd1234"`
resolve identically over the same subtree. -/
theorem c6_witness :
    lookupTitle catC6 (goToLower "ABCD1234") = lookupTitle catC6 (goToLower "abcd1234") ∧
    eraseRes (walkTree catC6 "dump"
        (.dir "ABCD1234" none [FSNode.dir "$u" none [FSNode.file "u.xbe" (.ok "k9")]])
        ("dump" ++ "/" ++ "ABCD1234")) =
      eraseRes (walkTree catC6 "dump"
        (.dir "abcd1234" none [FSNode.dir "$u" none [FSNode.file "u.xbe" (.ok "k9")]])
        ("dump" ++ "/" ++ "abcd1234")) :=
  c6_case_insensitive_title catC6 "dump" "dump" "ABCD1234" "abcd1234" none
    [FSNode.dir "$u" none [FSNode.file "u.xbe" (.ok "k9")]] (by decide) (by decide) (by decide)
